import Mathlib

/-!
# Verification of `examples/watch_stream.py` (usn-watcher stream consumer)

Shallow embedding of the NDJSON stream consumer:

* `read_from_stdin`    — the Line-Stream Reader (Transport A),
* `read_from_named_pipe` / `pipeLoop` / `drain` — the Framed-Pipe Reader
  (Transport B) with its accumulate-and-split framing loop,
* `handle_event`       — the reference handler's field extraction.

Bytes are modelled as `Nat` (the newline byte is `10`), Python strings as
`List Char`.  The external Python library functions `json.loads` and
`bytes.decode` are not part of the repository; the readers are therefore
parameterised over decoder functions (`loads : List Char → Option Json`,
`d : List Nat → Option Json`, the latter standing for
`fun bs => json.loads (bs.decode "utf-8")` with both failure modes mapped
to `none`).  Python exceptions raised by the handler are modelled by
`PyExc`; every constructor stands for an exception class derived from
`Exception` (`BaseException`-only classes such as `KeyboardInterrupt` are
out of scope of the claims).
-/

/-- Decoded JSON values, as produced by Python's `json.loads`
(dict / list / str / number / bool / None). -/
inductive Json where
  | null
  | bool (b : Bool)
  | num (n : Int)
  | str (s : String)
  | arr (elems : List Json)
  | obj (fields : List (String × Json))

/-- Python exception values that the user-supplied handler may raise.
`jsonDecodeError` is `json.JSONDecodeError`, `unicodeDecodeError` is
`UnicodeDecodeError`; `other` covers every further `Exception`-derived
class. -/
inductive PyExc where
  | jsonDecodeError
  | unicodeDecodeError
  | other (msg : String)

/-- Python truthiness (`bool(x)`) of a decoded JSON value: `None`, `False`,
`0`, `""`, `[]` and `{}` are falsy, everything else truthy. -/
def Json.truthy : Json → Bool
  | .null => false
  | .bool b => b
  | .num n => n != 0
  | .str s => !(s == "")
  | .arr elems => !elems.isEmpty
  | .obj fields => !fields.isEmpty

/-- Python Unicode whitespace, the character class removed by `str.strip()`
with no argument (`str.isspace`). -/
def pyIsSpace (c : Char) : Bool :=
  decide ((9 ≤ c.toNat ∧ c.toNat ≤ 13) ∨ c.toNat = 32 ∨ (28 ≤ c.toNat ∧ c.toNat ≤ 31) ∨
    c.toNat = 133 ∨ c.toNat = 160 ∨ c.toNat = 5760 ∨ (8192 ≤ c.toNat ∧ c.toNat ≤ 8202) ∨
    c.toNat = 8232 ∨ c.toNat = 8233 ∨ c.toNat = 8239 ∨ c.toNat = 8287 ∨ c.toNat = 12288)

/-- Remove trailing Python whitespace (`str.rstrip()`). -/
def pyRstrip (l : List Char) : List Char :=
  (l.reverse.dropWhile pyIsSpace).reverse

/-- `str.strip()`: remove leading and trailing Python whitespace
(source line 23: `line = line.strip()`). -/
def pyStrip (l : List Char) : List Char :=
  pyRstrip (l.dropWhile pyIsSpace)

/-- One `try: event = json.loads(line); handle_event(event)
except json.JSONDecodeError: pass` body of `read_from_stdin`
(source lines 26-30).  Returns the event passed to the handler (if any)
and the exception escaping the `try` block (if any): a decode failure is
caught, a handler `json.JSONDecodeError` is caught by the same `except`
clause, any other handler exception escapes. -/
def processLine (loads : List Char → Option Json) (h : Json → Except PyExc Unit)
    (l : List Char) : Option Json × Option PyExc :=
  match loads l with
  | none => (none, none)
  | some e =>
    match h e with
    | Except.ok _ => (some e, none)
    | Except.error PyExc.jsonDecodeError => (some e, none)
    | Except.error exc => (some e, some exc)

/-- The Line-Stream Reader `read_from_stdin` (source lines 21-30), over the
list of lines delivered by iterating `sys.stdin`.  Result: the events
dispatched to the handler, in order, and the exception (if any) that
escaped the loop uncaught and aborted it. -/
def read_from_stdin (loads : List Char → Option Json) (h : Json → Except PyExc Unit) :
    List (List Char) → List Json × Option PyExc
  | [] => ([], none)
  | line :: rest =>
    let l := pyStrip line
    if l.isEmpty then read_from_stdin loads h rest
    else
      match processLine loads h l with
      | (ev, some exc) => (ev.toList, some exc)
      | (ev, none) =>
        let r := read_from_stdin loads h rest
        (ev.toList ++ r.1, r.2)

/-- `buffer.split(b'\n', 1)` guarded by `b'\n' in buffer`
(source lines 58-59): `some (line, rest)` splits at the first newline
byte, `none` means the buffer holds no newline. -/
def pySplitOnce : List Nat → Option (List Nat × List Nat)
  | [] => none
  | b :: rest =>
    if b = 10 then some ([], rest)
    else
      match pySplitOnce rest with
      | none => none
      | some (l, r) => some (b :: l, r)

/-- Specification-side view of repeated splitting: the complete
(newline-terminated) records of a byte sequence, and the trailing bytes
after the last newline. -/
def splitLines : List Nat → List (List Nat) × List Nat
  | [] => ([], [])
  | b :: rest =>
    if b = 10 then
      (([] : List Nat) :: (splitLines rest).1, (splitLines rest).2)
    else
      match splitLines rest with
      | ([], t) => ([], b :: t)
      | (l :: ls, t) => ((b :: l) :: ls, t)

/-- Whether the inner `except (json.JSONDecodeError, UnicodeDecodeError)`
clause of `read_from_named_pipe` (source line 63) catches an exception. -/
def caughtInner : PyExc → Bool
  | PyExc.jsonDecodeError => true
  | PyExc.unicodeDecodeError => true
  | PyExc.other _ => false

/-- One `try: event = json.loads(line.decode('utf-8')); handle_event(event)
except (json.JSONDecodeError, UnicodeDecodeError): pass` body of
`read_from_named_pipe` (source lines 60-64), with
`d = fun bs => json.loads (bs.decode "utf-8")` collapsing both decode
stages (both failure exceptions are caught identically).  Returns the
event passed to the handler (if any) and the exception escaping the
`try` block (if any). -/
def processRecord (d : List Nat → Option Json) (h : Json → Except PyExc Unit)
    (line : List Nat) : Option Json × Option PyExc :=
  match d line with
  | none => (none, none)
  | some e =>
    match h e with
    | Except.ok _ => (some e, none)
    | Except.error exc => (some e, if caughtInner exc then none else some exc)

/-- Fuel-indexed body of the extraction pass `while b'\n' in buffer:`
(source lines 58-64); the fuel is instantiated with the number of newline
bytes in the buffer, which is exactly the number of iterations the
`while` performs. -/
def drainAux (d : List Nat → Option Json) (h : Json → Except PyExc Unit) :
    Nat → List Nat → List Json × List Nat × Option PyExc
  | 0, bs => ([], bs, none)
  | n + 1, bs =>
    match pySplitOnce bs with
    | none => ([], bs, none)
    | some (line, rest) =>
      match processRecord d h line with
      | (ev, some exc) => (ev.toList, rest, some exc)
      | (ev, none) =>
        let r := drainAux d h n rest
        (ev.toList ++ r.1, r.2.1, r.2.2)

/-- The extraction pass of the Framed-Pipe Reader: repeatedly split the
buffer at the first newline and process each complete record
(source lines 58-64).  Returns the events dispatched, the final buffer,
and the exception (if any) escaping the inner loop towards the outer
`except Exception` clause. -/
def drain (d : List Nat → Option Json) (h : Json → Except PyExc Unit)
    (bs : List Nat) : List Json × List Nat × Option PyExc :=
  drainAux d h (bs.count 10) bs

/-- One result of `win32file.ReadFile(handle, 65536)` (source line 54):
either a chunk of bytes (possibly empty), or a raised read error / broken
pipe. -/
inductive PipeRead where
  | chunk (data : List Nat)
  | fail

/-- How a run of the Framed-Pipe Reader's loop ended: `exhausted` (all
modelled reads consumed, loop blocked on the next read, with the current
buffer), or `disconnected` (the outer `except Exception` clause printed
`Pipe disconnected` and executed `break`, source lines 66-68). -/
inductive PipeOutcome where
  | exhausted (buffer : List Nat)
  | disconnected (buffer : List Nat)

/-- The `while True:` loop of `read_from_named_pipe` (source lines 52-68):
read a chunk, append it to the buffer, run the extraction pass; a read
failure or an exception escaping the extraction pass is caught by the
outer `except Exception` clause, which logs and breaks.  Returns the
events dispatched, in order, and the outcome. -/
def pipeLoop (d : List Nat → Option Json) (h : Json → Except PyExc Unit) :
    List PipeRead → List Nat → List Json × PipeOutcome
  | [], buf => ([], PipeOutcome.exhausted buf)
  | PipeRead.fail :: _, buf => ([], PipeOutcome.disconnected buf)
  | PipeRead.chunk data :: rest, buf =>
    let r := drain d h (buf ++ data)
    match r.2.2 with
    | some _ => (r.1, PipeOutcome.disconnected r.2.1)
    | none =>
      let s := pipeLoop d h rest r.2.1
      (r.1 ++ s.1, s.2)

/-- The Framed-Pipe Reader `read_from_named_pipe` (source lines 34-68),
started with the empty buffer `buffer = b""` (source line 50). -/
def read_from_named_pipe (d : List Nat → Option Json) (h : Json → Except PyExc Unit)
    (reads : List PipeRead) : List Json × PipeOutcome :=
  pipeLoop d h reads []

/-- `dict.get`: first value bound to a key in an association-list model of
a Python dict, `none` when absent. -/
def dictGet : List (String × Json) → String → Option Json
  | [], _ => none
  | (k, v) :: rest, key => if k = key then some v else dictGet rest key

/-- The four local values extracted by `handle_event` (source lines
77-80). -/
structure EventFields where
  reasons : Json
  filename : Json
  timestamp : Json
  is_dir : Json

/-- The field extraction of `handle_event` (source lines 72-80): the
event dict's `reasons`/`fullPath`/`fileName`/`timestamp`/`isDirectory`
fields with Python's `dict.get` defaults, and the Python `or` fallback
`event.get('fullPath') or event.get('fileName', '')` (line 78), which
takes `fullPath` only when present and truthy.  The subsequent
conditional `print` (lines 83-85) is output only and out of the claims'
scope. -/
def handle_event (event : List (String × Json)) : EventFields :=
  ⟨(dictGet event "reasons").getD (Json.arr []),
   (match dictGet event "fullPath" with
    | some v => if v.truthy then v else (dictGet event "fileName").getD (Json.str "")
    | none => (dictGet event "fileName").getD (Json.str "")),
   (dictGet event "timestamp").getD (Json.str ""),
   (dictGet event "isDirectory").getD (Json.bool false)⟩

/-- UTF-8 encoding of one character (RFC 3629). -/
def utf8EncodeChar (c : Char) : List Nat :=
  if c.toNat < 128 then [c.toNat]
  else if c.toNat < 2048 then [192 + c.toNat / 64, 128 + c.toNat % 64]
  else if c.toNat < 65536 then
    [224 + c.toNat / 4096, 128 + c.toNat / 64 % 64, 128 + c.toNat % 64]
  else
    [240 + c.toNat / 262144, 128 + c.toNat / 4096 % 64,
     128 + c.toNat / 64 % 64, 128 + c.toNat % 64]

/-- UTF-8 encoding of a Python string (`str.encode('utf-8')`). -/
def utf8Encode : List Char → List Nat
  | [] => []
  | c :: rest => utf8EncodeChar c ++ utf8Encode rest

/-- Newline-terminated join: `l1 ++ "\n" ++ l2 ++ "\n" ++ ...` with a
newline after every element (the NDJSON wire form of a record list). -/
def ndJoin : List (List Nat) → List Nat
  | [] => []
  | l :: rest => l ++ 10 :: ndJoin rest

/-- Newline-separated join with no trailing newline:
`R1 ++ "\n" ++ R2 ++ "\n" ++ ... ++ Rn` as written in the framing claim. -/
def ndIntercal : List (List Nat) → List Nat
  | [] => []
  | [r] => r
  | r :: rest => r ++ 10 :: ndIntercal rest

/-- The sequence of events the Line-Stream Reader decodes from its lines:
one per line that survives stripping and decodes, in order. -/
def stdinDecoded (loads : List Char → Option Json) : List (List Char) → List Json
  | [] => []
  | line :: rest =>
    let l := pyStrip line
    if l.isEmpty then stdinDecoded loads rest
    else
      match loads l with
      | none => stdinDecoded loads rest
      | some e => e :: stdinDecoded loads rest

/-- Stand-in for Python's `json.loads` on the inputs exercised by concrete
witnesses: it agrees with `json.loads` there (`"{}"` is the empty object;
`""` and `"x"` are not JSON). -/
def loadsEmptyObj : List Char → Option Json :=
  fun s => if s = ['{', '}'] then some (Json.obj []) else none

/-- Stand-in for `fun bs => json.loads (bs.decode "utf-8")` on the inputs
exercised by concrete witnesses: the UTF-8 bytes `0x7b 0x7d` of `"{}"`
decode to the empty object, everything else exercised fails. -/
def decodeEmptyObjBytes : List Nat → Option Json :=
  fun bs => if bs = [123, 125] then some (Json.obj []) else none

/-- A handler that never raises. -/
def okHandler : Json → Except PyExc Unit := fun _ => Except.ok ()

/-- A handler that raises `json.JSONDecodeError` on every event. -/
def jsonErrHandler : Json → Except PyExc Unit :=
  fun _ => Except.error PyExc.jsonDecodeError

/-- A handler that raises an `Exception`-derived error (for instance a
`TypeError`) on every event. -/
def otherErrHandler : Json → Except PyExc Unit :=
  fun _ => Except.error (PyExc.other "boom")

/-! ## Basic properties of the splitting primitives -/

theorem pySplitOnce_eq_none : ∀ {bs : List Nat}, pySplitOnce bs = none ↔ 10 ∉ bs := by
  intro bs
  induction bs with
  | nil => simp [pySplitOnce]
  | cons b rest ih =>
    by_cases hb : b = 10
    · subst hb; simp [pySplitOnce]
    · simp only [pySplitOnce, if_neg hb]
      cases hr : pySplitOnce rest with
      | none =>
        have hmem : 10 ∉ rest := ih.mp hr
        simp only [List.mem_cons, not_or, true_iff]
        exact ⟨fun h => hb h.symm, hmem⟩
      | some p =>
        have hmem : 10 ∈ rest := by
          by_contra hnot
          rw [ih.mpr hnot] at hr
          exact Option.noConfusion hr
        simp [List.mem_cons, hmem]

theorem pySplitOnce_eq_some : ∀ {bs l r : List Nat}, pySplitOnce bs = some (l, r) →
    bs = l ++ 10 :: r ∧ 10 ∉ l := by
  intro bs
  induction bs with
  | nil => intro l r h; exact absurd h (by simp [pySplitOnce])
  | cons b rest ih =>
    intro l r h
    by_cases hb : b = 10
    · subst hb
      simp only [pySplitOnce, if_pos rfl, Option.some.injEq, Prod.mk.injEq] at h
      obtain ⟨rfl, rfl⟩ := h
      simp
    · simp only [pySplitOnce, if_neg hb] at h
      cases hr : pySplitOnce rest with
      | none => rw [hr] at h; exact Option.noConfusion h
      | some p =>
        obtain ⟨l', r'⟩ := p
        rw [hr] at h
        simp only [Option.some.injEq, Prod.mk.injEq] at h
        obtain ⟨rfl, rfl⟩ := h
        obtain ⟨hb1, hb2⟩ := ih hr
        constructor
        · rw [hb1]; simp
        · simp only [List.mem_cons, not_or]
          exact ⟨fun h => hb h.symm, hb2⟩

theorem splitLines_of_not_mem : ∀ {bs : List Nat}, 10 ∉ bs → splitLines bs = ([], bs) := by
  intro bs
  induction bs with
  | nil => intro _; rfl
  | cons b rest ih =>
    intro h
    have hb : ¬ b = 10 := by intro hb; subst hb; exact h (List.mem_cons_self _ _)
    have hrest : 10 ∉ rest := fun hm => h (List.mem_cons_of_mem _ hm)
    simp only [splitLines, if_neg hb, ih hrest]

theorem splitLines_append_cons : ∀ {l : List Nat}, 10 ∉ l → ∀ r : List Nat,
    splitLines (l ++ 10 :: r) = (l :: (splitLines r).1, (splitLines r).2) := by
  intro l
  induction l with
  | nil => intro _ r; simp [splitLines]
  | cons b l' ih =>
    intro hl r
    have hb : ¬ b = 10 := by intro hb; subst hb; exact hl (List.mem_cons_self _ _)
    have hl' : 10 ∉ l' := fun hm => hl (List.mem_cons_of_mem _ hm)
    rw [List.cons_append]
    simp only [splitLines, if_neg hb, List.append_eq]
    rw [ih hl' r]

theorem splitLines_snd_not_mem : ∀ bs : List Nat, 10 ∉ (splitLines bs).2 := by
  intro bs
  induction bs with
  | nil => simp [splitLines]
  | cons b rest ih =>
    by_cases hb : b = 10
    · subst hb; simpa [splitLines] using ih
    · simp only [splitLines, if_neg hb]
      cases hr : splitLines rest with
      | mk ls t =>
        rw [hr] at ih
        cases ls with
        | nil =>
          simp only [List.mem_cons, not_or]
          exact ⟨fun h => hb h.symm, ih⟩
        | cons l ls' => simpa using ih

theorem splitLines_cons (b : Nat) (rest : List Nat) :
    splitLines (b :: rest) =
      if b = 10 then (([] : List Nat) :: (splitLines rest).1, (splitLines rest).2)
      else
        match splitLines rest with
        | ([], t) => ([], b :: t)
        | (l :: ls, t) => ((b :: l) :: ls, t) := rfl

theorem splitLines_fst_not_mem : ∀ (bs : List Nat) (l : List Nat),
    l ∈ (splitLines bs).1 → 10 ∉ l := by
  intro bs
  induction bs with
  | nil => intro l h; simp [splitLines] at h
  | cons b rest ih =>
    intro l hl
    cases hr : splitLines rest with
    | mk ls t =>
      rw [splitLines_cons, hr] at hl
      rw [hr] at ih
      by_cases hb : b = 10
      · rw [if_pos hb] at hl
        simp only [List.mem_cons] at hl
        rcases hl with hl | hl
        · subst hl; simp
        · exact ih l hl
      · rw [if_neg hb] at hl
        cases ls with
        | nil => simp at hl
        | cons l0 ls' =>
          simp only [List.mem_cons] at hl
          rcases hl with hl | hl
          · subst hl
            have h0 : 10 ∉ l0 := ih l0 (by simp)
            simp only [List.mem_cons, not_or]
            exact ⟨fun h => hb h.symm, h0⟩
          · exact ih l (by simp [hl])

theorem splitLines_reconstruct : ∀ bs : List Nat,
    ndJoin (splitLines bs).1 ++ (splitLines bs).2 = bs := by
  intro bs
  induction bs with
  | nil => rfl
  | cons b rest ih =>
    cases hr : splitLines rest with
    | mk ls t =>
      rw [hr] at ih
      by_cases hb : b = 10
      · subst hb
        have h1 : splitLines (10 :: rest) = ([] :: ls, t) := by
          rw [splitLines_cons, if_pos rfl, hr]
        rw [h1]
        simp only [ndJoin, List.nil_append, List.cons_append]
        rw [ih]
      · cases ls with
        | nil =>
          have h1 : splitLines (b :: rest) = ([], b :: t) := by
            rw [splitLines_cons, if_neg hb, hr]
          rw [h1]
          simp only [ndJoin, List.nil_append] at ih ⊢
          rw [ih]
        | cons l0 ls' =>
          have h1 : splitLines (b :: rest) = ((b :: l0) :: ls', t) := by
            rw [splitLines_cons, if_neg hb, hr]
          rw [h1]
          simp only [ndJoin, List.cons_append, List.append_assoc] at ih ⊢
          rw [ih]

theorem splitLines_ndJoin_append : ∀ (A : List (List Nat)), (∀ l ∈ A, 10 ∉ l) →
    ∀ z : List Nat, splitLines (ndJoin A ++ z) = (A ++ (splitLines z).1, (splitLines z).2) := by
  intro A
  induction A with
  | nil => intro _ z; simp [ndJoin]
  | cons l A' ih =>
    intro hA z
    have hl : 10 ∉ l := hA l (by simp)
    have hA' : ∀ x ∈ A', 10 ∉ x := fun x hx => hA x (by simp [hx])
    simp only [ndJoin, List.append_assoc, List.cons_append]
    rw [splitLines_append_cons hl, ih hA' z]

theorem splitLines_append : ∀ xs ys : List Nat,
    splitLines (xs ++ ys) =
      ((splitLines xs).1 ++ (splitLines ((splitLines xs).2 ++ ys)).1,
       (splitLines ((splitLines xs).2 ++ ys)).2) := by
  intro xs ys
  conv_lhs => rw [← splitLines_reconstruct xs]
  rw [List.append_assoc]
  exact splitLines_ndJoin_append _ (splitLines_fst_not_mem xs) _

theorem splitLines_ndJoin : ∀ (A : List (List Nat)), (∀ l ∈ A, 10 ∉ l) →
    splitLines (ndJoin A) = (A, []) := by
  intro A hA
  have h := splitLines_ndJoin_append A hA []
  simpa [splitLines] using h

theorem splitLines_ndIntercal : ∀ (rs : List (List Nat)) (lastRec : List Nat),
    (∀ r ∈ rs, 10 ∉ r) → 10 ∉ lastRec →
    splitLines (ndIntercal (rs ++ [lastRec])) = (rs, lastRec) := by
  intro rs
  induction rs with
  | nil =>
    intro lastRec _ hlast
    simpa [ndIntercal] using splitLines_of_not_mem hlast
  | cons a rs' ih =>
    intro lastRec hrs hlast
    have hnd : ndIntercal ((a :: rs') ++ [lastRec]) = a ++ 10 :: ndIntercal (rs' ++ [lastRec]) := by
      cases rs' <;> rfl
    rw [hnd, splitLines_append_cons (hrs a (by simp)),
      ih lastRec (fun r hr => hrs r (by simp [hr])) hlast]

/-! ## Behaviour of the extraction pass -/

theorem drain_of_not_mem {d : List Nat → Option Json} {h : Json → Except PyExc Unit}
    {bs : List Nat} (hbs : 10 ∉ bs) : drain d h bs = ([], bs, none) := by
  unfold drain
  rw [List.count_eq_zero.mpr hbs]
  rfl

theorem drain_step {d : List Nat → Option Json} {h : Json → Except PyExc Unit}
    {bs line rest : List Nat} (hs : pySplitOnce bs = some (line, rest)) :
    drain d h bs =
      match processRecord d h line with
      | (ev, some exc) => (ev.toList, rest, some exc)
      | (ev, none) =>
        (ev.toList ++ (drain d h rest).1, (drain d h rest).2.1, (drain d h rest).2.2) := by
  obtain ⟨hbs, hline⟩ := pySplitOnce_eq_some hs
  have hcount : bs.count 10 = rest.count 10 + 1 := by
    subst hbs
    rw [List.count_append, List.count_cons_self, List.count_eq_zero.mpr hline]
    omega
  unfold drain
  rw [hcount]
  simp only [drainAux, hs]

theorem processRecord_ok {d : List Nat → Option Json} {h : Json → Except PyExc Unit}
    (Hok : ∀ e, h e = Except.ok ()) (line : List Nat) :
    processRecord d h line = (d line, none) := by
  unfold processRecord
  cases hd : d line with
  | none => rfl
  | some e => simp only [Hok e]

theorem drain_ok {d : List Nat → Option Json} {h : Json → Except PyExc Unit}
    (Hok : ∀ e, h e = Except.ok ()) :
    ∀ bs, drain d h bs = ((splitLines bs).1.filterMap d, (splitLines bs).2, none) := by
  suffices H : ∀ n bs, List.count 10 bs = n →
      drain d h bs = ((splitLines bs).1.filterMap d, (splitLines bs).2, none) by
    exact fun bs => H _ bs rfl
  intro n
  induction n with
  | zero =>
    intro bs h0
    have hn : 10 ∉ bs := List.count_eq_zero.mp h0
    rw [drain_of_not_mem hn, splitLines_of_not_mem hn]
    rfl
  | succ n ih =>
    intro bs hc
    have hmem : 10 ∈ bs := by
      by_contra hn
      rw [List.count_eq_zero.mpr hn] at hc
      exact Nat.noConfusion hc
    obtain ⟨l, r, hs⟩ : ∃ l r, pySplitOnce bs = some (l, r) := by
      cases hp : pySplitOnce bs with
      | none => exact absurd hmem (pySplitOnce_eq_none.mp hp)
      | some p =>
        obtain ⟨l, r⟩ := p
        exact ⟨l, r, rfl⟩
    obtain ⟨hbs, hl⟩ := pySplitOnce_eq_some hs
    have hr : List.count 10 r = n := by
      rw [hbs, List.count_append, List.count_cons_self, List.count_eq_zero.mpr hl] at hc
      omega
    rw [drain_step hs, processRecord_ok Hok]
    rw [ih r hr]
    rw [hbs, splitLines_append_cons hl]
    simp only [List.filterMap_cons]
    cases d l <;> simp

theorem drain_none_not_mem {d : List Nat → Option Json} {h : Json → Except PyExc Unit} :
    ∀ {bs ds buf}, drain d h bs = (ds, buf, none) → 10 ∉ buf := by
  suffices H : ∀ n bs ds buf, List.count 10 bs = n →
      drain d h bs = (ds, buf, none) → 10 ∉ buf by
    exact fun {bs ds buf} => H _ bs ds buf rfl
  intro n
  induction n with
  | zero =>
    intro bs ds buf h0 hrun
    have hn : 10 ∉ bs := List.count_eq_zero.mp h0
    rw [drain_of_not_mem hn] at hrun
    obtain ⟨rfl, rfl, -⟩ : ([] : List Json) = ds ∧ bs = buf ∧ (none : Option PyExc) = none := by
      simpa [Prod.ext_iff] using hrun
    exact hn
  | succ n ih =>
    intro bs ds buf hc hrun
    have hmem : 10 ∈ bs := by
      by_contra hn
      rw [List.count_eq_zero.mpr hn] at hc
      exact Nat.noConfusion hc
    obtain ⟨l, r, hs⟩ : ∃ l r, pySplitOnce bs = some (l, r) := by
      cases hp : pySplitOnce bs with
      | none => exact absurd hmem (pySplitOnce_eq_none.mp hp)
      | some p =>
        obtain ⟨l, r⟩ := p
        exact ⟨l, r, rfl⟩
    obtain ⟨hbs, hl⟩ := pySplitOnce_eq_some hs
    have hr : List.count 10 r = n := by
      rw [hbs, List.count_append, List.count_cons_self, List.count_eq_zero.mpr hl] at hc
      omega
    rw [drain_step hs] at hrun
    cases hp : processRecord d h l with
    | mk ev exco =>
      rw [hp] at hrun
      cases exco with
      | some exc => simp at hrun
      | none =>
        simp only at hrun
        cases hd : drain d h r with
        | mk ds' p' =>
          have hb2 : drain d h r = (ds', p'.1, p'.2) := by rw [hd]
          rw [hb2] at hrun
          simp only [Prod.mk.injEq] at hrun
          obtain ⟨-, h2, h3⟩ := hrun
          subst h2
          exact ih r ds' p'.1 hr (by rw [hd, ← h3])

/-! ## Behaviour of the outer reading loops -/

theorem pipeLoop_nil {d : List Nat → Option Json} {h : Json → Except PyExc Unit}
    (buf : List Nat) : pipeLoop d h [] buf = ([], PipeOutcome.exhausted buf) := rfl

theorem pipeLoop_fail {d : List Nat → Option Json} {h : Json → Except PyExc Unit}
    (rest : List PipeRead) (buf : List Nat) :
    pipeLoop d h (PipeRead.fail :: rest) buf = ([], PipeOutcome.disconnected buf) := rfl

theorem pipeLoop_chunk {d : List Nat → Option Json} {h : Json → Except PyExc Unit}
    (data : List Nat) (rest : List PipeRead) (buf : List Nat) :
    pipeLoop d h (PipeRead.chunk data :: rest) buf =
      match (drain d h (buf ++ data)).2.2 with
      | some _ => ((drain d h (buf ++ data)).1,
          PipeOutcome.disconnected (drain d h (buf ++ data)).2.1)
      | none =>
        ((drain d h (buf ++ data)).1 ++ (pipeLoop d h rest (drain d h (buf ++ data)).2.1).1,
         (pipeLoop d h rest (drain d h (buf ++ data)).2.1).2) := rfl

theorem pipeLoop_chunks {d : List Nat → Option Json} {h : Json → Except PyExc Unit}
    (Hok : ∀ e, h e = Except.ok ()) :
    ∀ (chunks : List (List Nat)) (more : List PipeRead) (buf : List Nat), 10 ∉ buf →
      pipeLoop d h (chunks.map PipeRead.chunk ++ more) buf =
        ((splitLines (buf ++ chunks.flatten)).1.filterMap d ++
            (pipeLoop d h more (splitLines (buf ++ chunks.flatten)).2).1,
         (pipeLoop d h more (splitLines (buf ++ chunks.flatten)).2).2) := by
  intro chunks
  induction chunks with
  | nil =>
    intro more buf hbuf
    rw [List.flatten_nil, List.append_nil, splitLines_of_not_mem hbuf]
    simp
  | cons c cs ih =>
    intro more buf hbuf
    rw [List.map_cons, List.cons_append, pipeLoop_chunk, drain_ok Hok]
    simp only
    rw [ih more _ (splitLines_snd_not_mem _)]
    rw [List.flatten_cons,
      show buf ++ (c ++ cs.flatten) = (buf ++ c) ++ cs.flatten from
        (List.append_assoc buf c cs.flatten).symm,
      splitLines_append (buf ++ c) cs.flatten]
    simp [List.filterMap_append, List.append_assoc]

theorem read_from_stdin_nil {loads : List Char → Option Json}
    {h : Json → Except PyExc Unit} : read_from_stdin loads h [] = ([], none) := rfl

theorem read_from_stdin_cons {loads : List Char → Option Json}
    {h : Json → Except PyExc Unit} (line : List Char) (rest : List (List Char)) :
    read_from_stdin loads h (line :: rest) =
      if (pyStrip line).isEmpty then read_from_stdin loads h rest
      else
        match processLine loads h (pyStrip line) with
        | (ev, some exc) => (ev.toList, some exc)
        | (ev, none) =>
          (ev.toList ++ (read_from_stdin loads h rest).1, (read_from_stdin loads h rest).2) := rfl

theorem read_from_stdin_ok {loads : List Char → Option Json} {h : Json → Except PyExc Unit}
    (Hok : ∀ e, h e = Except.ok ()) :
    ∀ lines, read_from_stdin loads h lines = (stdinDecoded loads lines, none) := by
  intro lines
  induction lines with
  | nil => rfl
  | cons line rest ih =>
    rw [read_from_stdin_cons]
    by_cases hl : (pyStrip line).isEmpty
    · rw [if_pos hl, ih]
      simp only [stdinDecoded]
      rw [if_pos hl]
    · rw [if_neg hl]
      unfold processLine
      cases hd : loads (pyStrip line) with
      | none =>
        simp only [stdinDecoded]
        rw [if_neg hl, hd, ih]
        simp
      | some e =>
        simp only [Hok]
        simp only [stdinDecoded]
        rw [if_neg hl, hd, ih]
        simp

/-! ## Stripping and UTF-8 encoding -/

theorem char_eq_of_toNat_eq {c d : Char} (h : c.toNat = d.toNat) : c = d :=
  Char.eq_of_val_eq (UInt32.ext h)

theorem pyIsSpace_nl : pyIsSpace '\n' = true := by decide

theorem dropWhile_append_single : ∀ (l : List Char) (c : Char), pyIsSpace c = true →
    (l ++ [c]).dropWhile pyIsSpace =
      if (l.dropWhile pyIsSpace).isEmpty then [] else l.dropWhile pyIsSpace ++ [c] := by
  intro l c hc
  induction l with
  | nil => simp [List.dropWhile, hc]
  | cons a l' ih =>
    by_cases ha : pyIsSpace a
    · simpa [List.cons_append, List.dropWhile_cons, ha] using ih
    · simp [List.cons_append, List.dropWhile_cons, ha]

theorem pyRstrip_append_space (x : List Char) (c : Char) (hc : pyIsSpace c = true) :
    pyRstrip (x ++ [c]) = pyRstrip x := by
  unfold pyRstrip
  rw [List.reverse_append]
  simp [List.dropWhile_cons, hc]

theorem pyStrip_append_nl (l : List Char) : pyStrip (l ++ ['\n']) = pyStrip l := by
  unfold pyStrip
  rw [dropWhile_append_single l _ pyIsSpace_nl]
  by_cases hE : (l.dropWhile pyIsSpace).isEmpty
  · rw [if_pos hE]
    have h0 : l.dropWhile pyIsSpace = [] := by simpa using hE
    rw [h0]
  · rw [if_neg hE, pyRstrip_append_space _ _ pyIsSpace_nl]

theorem utf8EncodeChar_ten : ∀ {c : Char}, 10 ∈ utf8EncodeChar c → c = '\n' := by
  intro c h
  unfold utf8EncodeChar at h
  by_cases h1 : c.toNat < 128
  · rw [if_pos h1] at h
    simp only [List.mem_singleton] at h
    exact char_eq_of_toNat_eq h.symm
  · rw [if_neg h1] at h
    by_cases h2 : c.toNat < 2048
    · rw [if_pos h2] at h
      simp only [List.mem_cons, List.not_mem_nil, or_false] at h
      omega
    · rw [if_neg h2] at h
      by_cases h3 : c.toNat < 65536
      · rw [if_pos h3] at h
        simp only [List.mem_cons, List.not_mem_nil, or_false] at h
        omega
      · rw [if_neg h3] at h
        simp only [List.mem_cons, List.not_mem_nil, or_false] at h
        omega

theorem utf8Encode_not_mem_ten : ∀ {s : List Char}, ('\n') ∉ s → 10 ∉ utf8Encode s := by
  intro s
  induction s with
  | nil => intro _ h; simp [utf8Encode] at h
  | cons c s' ih =>
    intro hs h
    simp only [utf8Encode] at h
    rcases List.mem_append.mp h with h | h
    · have hc := utf8EncodeChar_ten h
      subst hc
      exact hs (List.mem_cons_self _ _)
    · exact ih (fun hm => hs (List.mem_cons_of_mem _ hm)) h

theorem stdinDecoded_records (loads : List Char → Option Json) :
    ∀ records : List (List Char),
      (∀ r ∈ records, loads (pyStrip r) = loads r) → loads [] = none →
      stdinDecoded loads (records.map (fun r => r ++ ['\n'])) = records.filterMap loads := by
  intro records
  induction records with
  | nil => intro _ _; rfl
  | cons r rs ih =>
    intro hws hempty
    have hr := hws r (by simp)
    have hrs : ∀ x ∈ rs, loads (pyStrip x) = loads x := fun x hx => hws x (by simp [hx])
    rw [List.map_cons]
    simp only [stdinDecoded]
    rw [pyStrip_append_nl]
    by_cases hE : (pyStrip r).isEmpty
    · rw [if_pos hE]
      have h0 : pyStrip r = [] := by simpa using hE
      have hnone : loads r = none := by rw [← hr, h0, hempty]
      rw [List.filterMap_cons, hnone, ih hrs hempty]
    · rw [if_neg hE, hr, List.filterMap_cons]
      cases hl : loads r with
      | none => rw [ih hrs hempty]
      | some e => rw [ih hrs hempty]

theorem pySplitOnce_append : ∀ {l : List Nat}, 10 ∉ l → ∀ r : List Nat,
    pySplitOnce (l ++ 10 :: r) = some (l, r) := by
  intro l
  induction l with
  | nil => intro _ r; simp [pySplitOnce]
  | cons b l' ih =>
    intro hl r
    have hb : ¬ b = 10 := by intro hb; subst hb; exact hl (List.mem_cons_self _ _)
    have hl' : 10 ∉ l' := fun hm => hl (List.mem_cons_of_mem _ hm)
    rw [List.cons_append]
    simp only [pySplitOnce, if_neg hb, List.append_eq]
    rw [ih hl' r]

theorem pipeLoop_handler_escape {d : List Nat → Option Json} {h : Json → Except PyExc Unit}
    {r : List Nat} {e : Json} {exc : PyExc} (rest : List PipeRead)
    (hr : 10 ∉ r) (hd : d r = some e) (hh : h e = Except.error exc)
    (hcaught : caughtInner exc = false) :
    pipeLoop d h (PipeRead.chunk (r ++ [10]) :: rest) [] =
      ([e], PipeOutcome.disconnected []) := by
  have hdrain : drain d h ([] ++ (r ++ [10])) = ([e], [], some exc) := by
    rw [List.nil_append]
    have hsplit : pySplitOnce (r ++ [10]) = some (r, []) := pySplitOnce_append hr []
    rw [drain_step hsplit]
    simp only [processRecord, hd, hh, hcaught]
    rfl
  rw [pipeLoop_chunk, hdrain]

theorem drain_none_snd {d : List Nat → Option Json} {h : Json → Except PyExc Unit} :
    ∀ {bs ds buf}, drain d h bs = (ds, buf, none) → buf = (splitLines bs).2 := by
  suffices H : ∀ n bs ds buf, List.count 10 bs = n →
      drain d h bs = (ds, buf, none) → buf = (splitLines bs).2 by
    exact fun {bs ds buf} => H _ bs ds buf rfl
  intro n
  induction n with
  | zero =>
    intro bs ds buf h0 hrun
    have hn : 10 ∉ bs := List.count_eq_zero.mp h0
    rw [drain_of_not_mem hn] at hrun
    rw [splitLines_of_not_mem hn]
    obtain ⟨-, h2, -⟩ : ([] : List Json) = ds ∧ bs = buf ∧ (none : Option PyExc) = none := by
      simpa [Prod.ext_iff] using hrun
    exact h2.symm
  | succ n ih =>
    intro bs ds buf hc hrun
    have hmem : 10 ∈ bs := by
      by_contra hn
      rw [List.count_eq_zero.mpr hn] at hc
      exact Nat.noConfusion hc
    obtain ⟨l, r, hs⟩ : ∃ l r, pySplitOnce bs = some (l, r) := by
      cases hp : pySplitOnce bs with
      | none => exact absurd hmem (pySplitOnce_eq_none.mp hp)
      | some p =>
        obtain ⟨l, r⟩ := p
        exact ⟨l, r, rfl⟩
    obtain ⟨hbs, hl⟩ := pySplitOnce_eq_some hs
    have hrc : List.count 10 r = n := by
      rw [hbs, List.count_append, List.count_cons_self, List.count_eq_zero.mpr hl] at hc
      omega
    rw [drain_step hs] at hrun
    rw [hbs, splitLines_append_cons hl]
    cases hp : processRecord d h l with
    | mk ev exco =>
      rw [hp] at hrun
      cases exco with
      | some exc => simp at hrun
      | none =>
        simp only at hrun
        cases hd : drain d h r with
        | mk ds' p' =>
          have hb2 : drain d h r = (ds', p'.1, p'.2) := by rw [hd]
          rw [hb2] at hrun
          simp only [Prod.mk.injEq] at hrun
          obtain ⟨-, h2, h3⟩ := hrun
          subst h2
          exact ih r ds' p'.1 hrc (by rw [hd, ← h3])

/-! ## The claims -/

/-- Claim C7 (confirmed): after every extraction pass that completes with
no escaping exception — i.e. whenever the Framed-Pipe Reader's loop
returns to waiting for the next chunk — the frame buffer holds exactly
the bytes after the last newline of what was drained (a single incomplete
trailing record, possibly empty) and contains no newline byte. -/
theorem claimC7 (d : List Nat → Option Json) (h : Json → Except PyExc Unit)
    (bs : List Nat) (ds : List Json) (buf : List Nat)
    (hrun : drain d h bs = (ds, buf, none)) :
    buf = (splitLines bs).2 ∧ 10 ∉ buf := by
  have h2 := drain_none_snd hrun
  exact ⟨h2, by rw [h2]; exact splitLines_snd_not_mem _⟩

/-- Witness for C7 at a concrete input: draining the buffer `b"{}\n"`
dispatches the decoded object and leaves the empty, newline-free buffer. -/
theorem claimC7_witness :
    drain decodeEmptyObjBytes okHandler [123, 125, 10] = ([Json.obj []], [], none)
      ∧ (([] : List Nat) = (splitLines [123, 125, 10]).2 ∧ 10 ∉ ([] : List Nat)) :=
  ⟨rfl, claimC7 decodeEmptyObjBytes okHandler [123, 125, 10] [Json.obj []] [] rfl⟩

/-- Claim C8 (confirmed): for the Event decoded from the record `"{}"` —
the dict with every field absent — `handle_event` computes the documented
defaults: `reasons = []`, filename `""` (from the fullPath/fileName
fallback), `timestamp = ""`, `is_dir = false`. -/
theorem claimC8 : handle_event [] =
    ⟨Json.arr [], Json.str "", Json.str "", Json.bool false⟩ := rfl

/-- Claim C9 (confirmed): `handle_event` takes the filename from
`fullPath` only when that field is present and truthy; when `fullPath` is
absent, `None`, or the empty string, it falls back to `fileName`
(defaulting to `""`); in particular `fullPath = ""` with
`fileName = "x"` yields filename `"x"`. -/
theorem claimC9 :
    (∀ (event : List (String × Json)) (v : Json), dictGet event "fullPath" = some v →
        v.truthy = true → (handle_event event).filename = v)
    ∧ (∀ event : List (String × Json),
        dictGet event "fullPath" = none ∨ dictGet event "fullPath" = some Json.null ∨
          dictGet event "fullPath" = some (Json.str "") →
        (handle_event event).filename = (dictGet event "fileName").getD (Json.str ""))
    ∧ (handle_event [("fullPath", Json.str ""), ("fileName", Json.str "x")]).filename =
        Json.str "x" := by
  refine ⟨?_, ?_, rfl⟩
  · intro event v hv ht
    simp [handle_event, hv, ht]
  · intro event hv
    rcases hv with hv | hv | hv <;> simp [handle_event, hv, Json.truthy]

/-- Witness for C9 at concrete inputs: a truthy `fullPath` is used
directly; an absent `fullPath` falls back to `fileName`. -/
theorem claimC9_witness :
    (handle_event [("fullPath", Json.str "a")]).filename = Json.str "a"
      ∧ (handle_event [("fileName", Json.str "y")]).filename = Json.str "y" :=
  ⟨claimC9.1 [("fullPath", Json.str "a")] (Json.str "a") rfl rfl,
   (claimC9.2.1 [("fileName", Json.str "y")] (Or.inl rfl)).trans rfl⟩

/-- Claim C10 (confirmed): in the Line-Stream Reader, a
`json.JSONDecodeError` raised by the handler itself is swallowed by the
same `except json.JSONDecodeError` clause that guards the parse, and the
loop continues with the next line. -/
theorem claimC10 (loads : List Char → Option Json) (h : Json → Except PyExc Unit)
    (line : List Char) (rest : List (List Char)) (e : Json)
    (hne : (pyStrip line).isEmpty = false)
    (hld : loads (pyStrip line) = some e)
    (hh : h e = Except.error PyExc.jsonDecodeError) :
    read_from_stdin loads h (line :: rest) =
      (e :: (read_from_stdin loads h rest).1, (read_from_stdin loads h rest).2) := by
  rw [read_from_stdin_cons, hne]
  simp only [Bool.false_eq_true, if_false, processLine, hld, hh]
  simp

/-- Witness for C10: with a handler that raises `json.JSONDecodeError` on
every event, the single line `"{}"` is still dispatched and the loop runs
to completion with no escaping exception. -/
theorem claimC10_witness :
    read_from_stdin loadsEmptyObj jsonErrHandler [['{', '}']] = ([Json.obj []], none) := by
  have h := claimC10 loadsEmptyObj jsonErrHandler ['{', '}'] [] (Json.obj []) rfl rfl rfl
  simpa using h

/-- Claim C2 (confirmed): when the stream ends, the frame buffer's content
equals exactly the bytes of the original concatenation after its last
newline (`(splitLines B).2`, empty if the stream ended at a newline, and
containing no newline byte); those trailing bytes are never dispatched —
events come only from the complete records — and no other byte is
dropped except the newline separators: the concatenation reconstructs
exactly as the newline-terminated join of the complete records followed
by the retained trailing bytes.  (Handler non-raising, as in the spec's
dispatch model.) -/
theorem claimC2 (d : List Nat → Option Json) (h : Json → Except PyExc Unit)
    (Hok : ∀ e, h e = Except.ok ()) (chunks : List (List Nat)) :
    read_from_named_pipe d h (chunks.map PipeRead.chunk ++ [PipeRead.fail]) =
        ((splitLines chunks.flatten).1.filterMap d,
         PipeOutcome.disconnected (splitLines chunks.flatten).2)
      ∧ ndJoin (splitLines chunks.flatten).1 ++ (splitLines chunks.flatten).2 = chunks.flatten
      ∧ 10 ∉ (splitLines chunks.flatten).2 := by
  refine ⟨?_, splitLines_reconstruct _, splitLines_snd_not_mem _⟩
  unfold read_from_named_pipe
  rw [pipeLoop_chunks Hok chunks [PipeRead.fail] [] (by simp), List.nil_append, pipeLoop_fail]
  simp

/-- Witness for C2: the chunks `b"{}\nab"`, `b"c"` end the stream with the
incomplete record `b"abc"` retained (never dispatched) and the single
complete record dispatched. -/
theorem claimC2_witness :
    read_from_named_pipe decodeEmptyObjBytes okHandler
        [PipeRead.chunk [123, 125, 10, 97, 98], PipeRead.chunk [99], PipeRead.fail] =
        ([Json.obj []], PipeOutcome.disconnected [97, 98, 99])
      ∧ ndJoin [[123, 125]] ++ [97, 98, 99] = [123, 125, 10, 97, 98, 99]
      ∧ 10 ∉ [97, 98, 99] := by
  have h := claimC2 decodeEmptyObjBytes okHandler (fun e => rfl)
    [[123, 125, 10, 97, 98], [99]]
  exact h

/-- Claim C3 (confirmed): in both readers a record that fails decoding is
dropped without dispatching an event and without terminating the loop: a
non-JSON line sitting between two valid JSON lines leaves exactly the two
valid lines dispatched, in order — for the Line-Stream Reader on the
three lines directly, and for the Framed-Pipe Reader on any chunking of
the corresponding newline-terminated byte stream. -/
theorem claimC3 (loads : List Char → Option Json) (dB : List Nat → Option Json)
    (h : Json → Except PyExc Unit) (l1 l2 l3 : List Char) (e1 e3 : Json)
    (r1 r2 r3 : List Nat) (chunks : List (List Nat))
    (Hok : ∀ e, h e = Except.ok ())
    (H1 : loads (pyStrip l1) = some e1) (H1n : (pyStrip l1).isEmpty = false)
    (H2 : loads (pyStrip l2) = none)
    (H3 : loads (pyStrip l3) = some e3) (H3n : (pyStrip l3).isEmpty = false)
    (Hb1 : dB r1 = some e1) (Hb2 : dB r2 = none) (Hb3 : dB r3 = some e3)
    (Hnl1 : 10 ∉ r1) (Hnl2 : 10 ∉ r2) (Hnl3 : 10 ∉ r3)
    (Hjoin : chunks.flatten = r1 ++ 10 :: (r2 ++ 10 :: (r3 ++ [10]))) :
    read_from_stdin loads h [l1, l2, l3] = ([e1, e3], none)
      ∧ read_from_named_pipe dB h (chunks.map PipeRead.chunk) =
          ([e1, e3], PipeOutcome.exhausted []) := by
  constructor
  · rw [read_from_stdin_ok Hok]
    by_cases h2E : (pyStrip l2).isEmpty
    · simp [stdinDecoded, H1n, h2E, H3n, H1, H2, H3]
    · simp [stdinDecoded, H1n, h2E, H3n, H1, H2, H3]
  · unfold read_from_named_pipe
    have hp := @pipeLoop_chunks dB h Hok chunks [] [] (by simp)
    rw [List.append_nil] at hp
    rw [hp, List.nil_append, Hjoin]
    have hsplit : splitLines (r1 ++ 10 :: (r2 ++ 10 :: (r3 ++ [10]))) = ([r1, r2, r3], []) := by
      rw [splitLines_append_cons Hnl1, splitLines_append_cons Hnl2,
        show r3 ++ [10] = r3 ++ 10 :: [] from rfl, splitLines_append_cons Hnl3]
      rfl
    rw [hsplit]
    simp [pipeLoop_nil, List.filterMap_cons, Hb1, Hb2, Hb3]

/-- Witness for C3: the NDJSON stream `b"{}\nx\n{}\n"` delivered in two
chunks splitting the middle record, and the same three lines on standard
input, both dispatch exactly the two decoded objects. -/
theorem claimC3_witness :
    read_from_stdin loadsEmptyObj okHandler [['{', '}'], ['x'], ['{', '}']] =
        ([Json.obj [], Json.obj []], none)
      ∧ read_from_named_pipe decodeEmptyObjBytes okHandler
          [PipeRead.chunk [123, 125, 10, 120], PipeRead.chunk [10, 123, 125, 10]] =
          ([Json.obj [], Json.obj []], PipeOutcome.exhausted []) := by
  have h := claimC3 loadsEmptyObj decodeEmptyObjBytes okHandler
    ['{', '}'] ['x'] ['{', '}'] (Json.obj []) (Json.obj [])
    [123, 125] [120] [123, 125] [[123, 125, 10, 120], [10, 123, 125, 10]]
    (fun e => rfl) rfl rfl rfl rfl rfl rfl rfl rfl
    (by decide) (by decide) (by decide) (by decide)
  exact h

/-- Counterexample to claim C1 as stated: for the chunk sequence whose
concatenation is `R1` alone (`R1 = b"{}"`, valid UTF-8 JSON, `n = 1`, no
newline after `Rn`), the Framed-Pipe Reader dispatches nothing — the
valid record `R1` stays in the buffer as a partial record — whereas the
claim demands an event for every valid `Ri`, `i = 1..n`. -/
theorem claimC1_counterexample :
    (read_from_named_pipe decodeEmptyObjBytes okHandler [PipeRead.chunk [123, 125]]).1 = []
      ∧ decodeEmptyObjBytes [123, 125] = some (Json.obj [])
      ∧ (read_from_named_pipe decodeEmptyObjBytes okHandler [PipeRead.chunk [123, 125]]).1 ≠
          [Json.obj []] := by
  refine ⟨rfl, rfl, ?_⟩
  intro hcontra
  exact absurd (show ([] : List Json) = [Json.obj []] from hcontra) (by simp)

/-- Claim C1 as amended: for every finite chunk sequence whose
concatenation equals `R1 ++ "\n" ++ ... ++ Rn` (each `Ri` newline-free),
the Framed-Pipe Reader dispatches decoded events for exactly those of
`R1..R(n-1)` — the newline-terminated records — that decode, in order
`1..n-1`, regardless of chunking; the trailing `Rn` is retained in the
buffer and never dispatched as a partial record.  (Handler non-raising.) -/
theorem claimC1_amended (d : List Nat → Option Json) (h : Json → Except PyExc Unit)
    (records : List (List Nat)) (lastRec : List Nat) (chunks : List (List Nat))
    (Hok : ∀ e, h e = Except.ok ())
    (Hnl : ∀ r ∈ records ++ [lastRec], 10 ∉ r)
    (Hjoin : chunks.flatten = ndIntercal (records ++ [lastRec])) :
    read_from_named_pipe d h (chunks.map PipeRead.chunk) =
      (records.filterMap d, PipeOutcome.exhausted lastRec) := by
  unfold read_from_named_pipe
  have hp := @pipeLoop_chunks d h Hok chunks [] [] (by simp)
  rw [List.append_nil] at hp
  rw [hp, List.nil_append, Hjoin,
    splitLines_ndIntercal records lastRec (fun r hr => Hnl r (by simp [hr]))
      (Hnl lastRec (by simp))]
  simp [pipeLoop_nil]

/-- Witness for the amended C1: `R1 = b"{}"`, `R2 = b"x"`, `R3 = b""`
delivered as `b"{}\nx"` + `b"\n"`: exactly the decodable newline-terminated
record is dispatched and the empty trailing record is retained. -/
theorem claimC1_witness :
    read_from_named_pipe decodeEmptyObjBytes okHandler
        [PipeRead.chunk [123, 125, 10, 120], PipeRead.chunk [10]] =
      ([Json.obj []], PipeOutcome.exhausted []) := by
  have h := claimC1_amended decodeEmptyObjBytes okHandler [[123, 125], [120]] []
    [[123, 125, 10, 120], [10]] (fun e => rfl) (by decide) (by decide)
  exact h

/-- Counterexample to claim C4 as stated: a `json.JSONDecodeError` raised
by the handler does not propagate out of the Line-Stream Reader — the
event is dispatched, the exception is swallowed by the `except` clause,
and the loop finishes normally (`none` escaping exception). -/
theorem claimC4_counterexample :
    read_from_stdin loadsEmptyObj jsonErrHandler [['{', '}']] = ([Json.obj []], none)
      ∧ jsonErrHandler (Json.obj []) = Except.error PyExc.jsonDecodeError := ⟨rfl, rfl⟩

/-- Claim C4 as amended: the handler is invoked exactly once per decoded
event, synchronously, in receipt order (parts 1 and 5, the non-raising
runs of both readers).  Exception propagation differs from the claim: in
the Line-Stream Reader a handler exception other than
`json.JSONDecodeError` propagates uncaught and aborts the loop (part 2),
while `json.JSONDecodeError` is swallowed and the loop continues
(part 3); in the Framed-Pipe Reader no handler exception escapes the
loop: ones not caught by the inner clause are caught by the outer
`except Exception`, which logs and terminates the loop (part 4). -/
theorem claimC4_amended :
    (∀ (loads : List Char → Option Json) (h : Json → Except PyExc Unit)
        (lines : List (List Char)), (∀ e, h e = Except.ok ()) →
        read_from_stdin loads h lines = (stdinDecoded loads lines, none))
    ∧ (∀ (loads : List Char → Option Json) (h : Json → Except PyExc Unit)
        (line : List Char) (rest : List (List Char)) (e : Json) (m : String),
        (pyStrip line).isEmpty = false → loads (pyStrip line) = some e →
        h e = Except.error (PyExc.other m) →
        read_from_stdin loads h (line :: rest) = ([e], some (PyExc.other m)))
    ∧ (∀ (loads : List Char → Option Json) (h : Json → Except PyExc Unit)
        (line : List Char) (rest : List (List Char)) (e : Json),
        (pyStrip line).isEmpty = false → loads (pyStrip line) = some e →
        h e = Except.error PyExc.jsonDecodeError →
        read_from_stdin loads h (line :: rest) =
          (e :: (read_from_stdin loads h rest).1, (read_from_stdin loads h rest).2))
    ∧ (∀ (d : List Nat → Option Json) (h : Json → Except PyExc Unit)
        (r : List Nat) (rest : List PipeRead) (e : Json) (exc : PyExc),
        10 ∉ r → d r = some e → h e = Except.error exc → caughtInner exc = false →
        pipeLoop d h (PipeRead.chunk (r ++ [10]) :: rest) [] =
          ([e], PipeOutcome.disconnected []))
    ∧ (∀ (d : List Nat → Option Json) (h : Json → Except PyExc Unit)
        (chunks : List (List Nat)), (∀ e, h e = Except.ok ()) →
        read_from_named_pipe d h (chunks.map PipeRead.chunk) =
          ((splitLines chunks.flatten).1.filterMap d,
           PipeOutcome.exhausted (splitLines chunks.flatten).2)) := by
  refine ⟨?_, ?_, ?_, ?_, ?_⟩
  · intro loads h lines Hok
    exact read_from_stdin_ok Hok lines
  · intro loads h line rest e m hne hld hh
    rw [read_from_stdin_cons, hne]
    simp only [Bool.false_eq_true, if_false, processLine, hld, hh]
    simp
  · intro loads h line rest e hne hld hh
    rw [read_from_stdin_cons, hne]
    simp only [Bool.false_eq_true, if_false, processLine, hld, hh]
    simp
  · intro d h r rest e exc hr hd hh hcaught
    exact pipeLoop_handler_escape rest hr hd hh hcaught
  · intro d h chunks Hok
    unfold read_from_named_pipe
    have hp := @pipeLoop_chunks d h Hok chunks [] [] (by simp)
    rw [List.append_nil] at hp
    rw [hp, List.nil_append]
    simp [pipeLoop_nil]

/-- Witness for the amended C4: a non-raising run dispatches exactly the
decoded events; a `TypeError`-like handler exception aborts the
Line-Stream Reader after the first event but leaves the Framed-Pipe
Reader with a logged disconnect instead of a propagated exception. -/
theorem claimC4_witness :
    read_from_stdin loadsEmptyObj okHandler [['{', '}']] = ([Json.obj []], none)
      ∧ read_from_stdin loadsEmptyObj otherErrHandler [['{', '}'], ['{', '}']] =
          ([Json.obj []], some (PyExc.other "boom"))
      ∧ pipeLoop decodeEmptyObjBytes otherErrHandler [PipeRead.chunk [123, 125, 10]] [] =
          ([Json.obj []], PipeOutcome.disconnected []) := by
  refine ⟨?_, ?_, ?_⟩
  · exact (claimC4_amended.1 loadsEmptyObj okHandler [['{', '}']] (fun e => rfl)).trans rfl
  · exact claimC4_amended.2.1 loadsEmptyObj otherErrHandler ['{', '}'] [['{', '}']]
      (Json.obj []) "boom" rfl rfl rfl
  · exact claimC4_amended.2.2.2.1 decodeEmptyObjBytes otherErrHandler [123, 125] []
      (Json.obj []) (PyExc.other "boom") (by decide) rfl rfl rfl

/-- Counterexample to claim C5 as stated: a zero-length read result does
not terminate the Framed-Pipe Reader's loop — after an empty chunk the
loop keeps reading, and the record arriving in the next chunk is still
dispatched (the claim would have the loop terminate at the empty read,
dispatching nothing). -/
theorem claimC5_counterexample :
    pipeLoop decodeEmptyObjBytes okHandler
        [PipeRead.chunk [], PipeRead.chunk [123, 125, 10]] [] =
        ([Json.obj []], PipeOutcome.exhausted [])
      ∧ ([Json.obj []] : List Json) ≠ [] := by
  refine ⟨rfl, ?_⟩
  simp

/-- Claim C5 as amended: a read error (raised by `ReadFile`) is caught by
the outer `except Exception` clause, logged, and terminates the loop
(part 1); a zero-length read result does not terminate the loop — it
leaves the buffer unchanged and the loop reads again (part 2); besides
read errors, a handler exception that the inner clause does not catch
also reaches the outer clause and terminates the loop (part 3). -/
theorem claimC5_amended :
    (∀ (d : List Nat → Option Json) (h : Json → Except PyExc Unit)
        (rest : List PipeRead) (buf : List Nat),
        pipeLoop d h (PipeRead.fail :: rest) buf = ([], PipeOutcome.disconnected buf))
    ∧ (∀ (d : List Nat → Option Json) (h : Json → Except PyExc Unit)
        (rest : List PipeRead) (buf : List Nat), 10 ∉ buf →
        pipeLoop d h (PipeRead.chunk [] :: rest) buf = pipeLoop d h rest buf)
    ∧ (∀ (d : List Nat → Option Json) (h : Json → Except PyExc Unit)
        (r : List Nat) (rest : List PipeRead) (e : Json) (exc : PyExc),
        10 ∉ r → d r = some e → h e = Except.error exc → caughtInner exc = false →
        pipeLoop d h (PipeRead.chunk (r ++ [10]) :: rest) [] =
          ([e], PipeOutcome.disconnected [])) := by
  refine ⟨?_, ?_, ?_⟩
  · intro d h rest buf
    exact pipeLoop_fail rest buf
  · intro d h rest buf hbuf
    rw [pipeLoop_chunk, List.append_nil, drain_of_not_mem hbuf]
    simp
  · intro d h r rest e exc hr hd hh hcaught
    exact pipeLoop_handler_escape rest hr hd hh hcaught

/-- Witness for the amended C5: a failing read terminates with the buffer
retained; an empty chunk is a no-op; an uncaught-by-inner handler
exception disconnects. -/
theorem claimC5_witness :
    pipeLoop decodeEmptyObjBytes okHandler [PipeRead.fail, PipeRead.chunk [123, 125, 10]]
        [97] = ([], PipeOutcome.disconnected [97])
      ∧ pipeLoop decodeEmptyObjBytes okHandler
          [PipeRead.chunk [], PipeRead.chunk [123, 125, 10]] [] =
          pipeLoop decodeEmptyObjBytes okHandler [PipeRead.chunk [123, 125, 10]] []
      ∧ pipeLoop decodeEmptyObjBytes otherErrHandler
          [PipeRead.chunk [123, 125, 10], PipeRead.fail] [] =
          ([Json.obj []], PipeOutcome.disconnected []) :=
  ⟨claimC5_amended.1 decodeEmptyObjBytes okHandler [PipeRead.chunk [123, 125, 10]] [97],
   claimC5_amended.2.1 decodeEmptyObjBytes okHandler [PipeRead.chunk [123, 125, 10]] []
     (by decide),
   claimC5_amended.2.2 decodeEmptyObjBytes otherErrHandler [123, 125] [PipeRead.fail]
     (Json.obj []) (PyExc.other "boom") (by decide) rfl rfl rfl⟩

/-- Counterexample to claim C6 as stated: for the single logical record
`"{}"`, Transport A (discrete newline-terminated lines) dispatches the
decoded object, but Transport B given the newline-JOINED concatenation —
which for one record carries no newline at all — dispatches nothing: the
last record is never newline-terminated, so the two dispatch sequences
differ.  (`loadsEmptyObj`/`decodeEmptyObjBytes` agree with Python's
`json.loads` and UTF-8 decoding on every input exercised here.) -/
theorem claimC6_counterexample :
    (read_from_stdin loadsEmptyObj okHandler [['{', '}', '\n']]).1 = [Json.obj []]
      ∧ (read_from_named_pipe decodeEmptyObjBytes okHandler [PipeRead.chunk [123, 125]]).1 = []
      ∧ (read_from_stdin loadsEmptyObj okHandler [['{', '}', '\n']]).1 ≠
          (read_from_named_pipe decodeEmptyObjBytes okHandler [PipeRead.chunk [123, 125]]).1 := by
  refine ⟨rfl, rfl, ?_⟩
  intro hcontra
  exact absurd (show ([Json.obj []] : List Json) = [] from hcontra) (by simp)

/-- Claim C6 as amended: for every logical record sequence, delivering the
records as discrete newline-terminated lines to the Line-Stream Reader
produces exactly the same dispatched-event sequence as delivering their
newline-TERMINATED byte concatenation (a newline after every record,
including the last), under any chunking, to the Framed-Pipe Reader.  The
hypotheses record the relevant properties of the external decoders:
`Hutf` — decoding the UTF-8 encoding of a record equals text-level
`json.loads` (Python's UTF-8 round trip); `Hws`/`Hempty` — `json.loads`
is insensitive to the whitespace `str.strip()` removes around these
records and rejects the empty string. -/
theorem claimC6_amended (loads : List Char → Option Json) (dB : List Nat → Option Json)
    (h : Json → Except PyExc Unit) (records : List (List Char)) (chunks : List (List Nat))
    (Hok : ∀ e, h e = Except.ok ())
    (Hnl : ∀ r ∈ records, ('\n') ∉ r)
    (Hutf : ∀ r ∈ records, dB (utf8Encode r) = loads r)
    (Hws : ∀ r ∈ records, loads (pyStrip r) = loads r)
    (Hempty : loads [] = none)
    (Hjoin : chunks.flatten = ndJoin (records.map utf8Encode)) :
    (read_from_stdin loads h (records.map (fun r => r ++ ['\n']))).1 =
      (read_from_named_pipe dB h (chunks.map PipeRead.chunk)).1 := by
  rw [read_from_stdin_ok Hok, stdinDecoded_records loads records Hws Hempty]
  unfold read_from_named_pipe
  have hp := @pipeLoop_chunks dB h Hok chunks [] [] (by simp)
  rw [List.append_nil] at hp
  have hnlB : ∀ l ∈ records.map utf8Encode, 10 ∉ l := by
    intro l hl
    obtain ⟨r, hr, rfl⟩ := List.mem_map.mp hl
    exact utf8Encode_not_mem_ten (Hnl r hr)
  rw [hp, List.nil_append, Hjoin, splitLines_ndJoin (records.map utf8Encode) hnlB]
  simp only [pipeLoop_nil, List.append_nil, List.filterMap_map]
  exact (List.filterMap_congr (fun r hr => Hutf r hr)).symm

/-- Witness for the amended C6: the single record `"{}"`, as the line
`"{}\n"` on standard input and as the terminated byte stream `b"{}\n"`
on the pipe, dispatches the same single event. -/
theorem claimC6_witness :
    (read_from_stdin loadsEmptyObj okHandler [['{', '}', '\n']]).1 =
      (read_from_named_pipe decodeEmptyObjBytes okHandler [PipeRead.chunk [123, 125, 10]]).1 := by
  have h := claimC6_amended loadsEmptyObj decodeEmptyObjBytes okHandler [['{', '}']]
    [[123, 125, 10]] (fun e => rfl) (by decide)
    (by intro r hr; rw [List.mem_singleton.mp hr]; rfl)
    (by intro r hr; rw [List.mem_singleton.mp hr]; rfl)
    rfl (by decide)
  exact h
